import Mathlib

/-!
Verification development for the Algo-Flatetraade trading engine
(`flattrade_noren_api.py`, live-trade section, class `TradingStrategy`).

The Python source is shallowly embedded below.  Prices and percentages are
modelled as rationals (the source uses Python floats, but every quantity the
claims speak about is produced by field arithmetic on finitely many inputs,
so ℚ is the faithful idealisation).  Timestamps are naturals; a session date
is derived from a timestamp exactly as `pd.to_datetime(..).dt.date` groups
rows, here by whole days of 86400 seconds.  Quantities that the source reads
out of broker quote dictionaries are passed in as explicit arguments;
external effects (order placement, sleeping, file I/O, console) are dropped
or abstracted as boolean/option-valued oracles, as noted at each definition.
-/

namespace AlgoFlat

/-- Signal direction emitted by the detector (`"BUY_CALL"` / `"BUY_PUT"`). -/
inductive SignalDir
  | buyCall
  | buyPut
deriving DecidableEq, Repr

/-- One dataframe row as consumed by `TradingStrategy.detect_signal`
(lines 231–247): only the `ema`, `vwap` and `close` columns are read. -/
structure Row where
  ema : ℚ
  vwap : ℚ
  close : ℚ
deriving DecidableEq, Repr

instance : Inhabited Row := ⟨⟨0, 0, 0⟩⟩

/-- The BUY_CALL condition of `detect_signal` (lines 235–238). -/
def callCond (prev curr : Row) : Prop :=
  prev.ema ≤ prev.vwap ∧ curr.ema > curr.vwap ∧
  curr.close > curr.vwap ∧ curr.close > curr.ema

/-- The BUY_PUT condition of `detect_signal` (lines 241–244). -/
def putCond (prev curr : Row) : Prop :=
  prev.ema ≥ prev.vwap ∧ curr.ema < curr.vwap ∧
  curr.close < curr.vwap ∧ curr.close < curr.ema

instance (prev curr : Row) : Decidable (callCond prev curr) := by
  unfold callCond; infer_instance

instance (prev curr : Row) : Decidable (putCond prev curr) := by
  unfold putCond; infer_instance

/-- `TradingStrategy.detect_signal` (lines 231–247): with fewer than two rows
returns `None`; otherwise evaluates the crossover conditions on the last two
rows `prev = df.iloc[-2]`, `curr = df.iloc[-1]` and returns the direction
together with `curr["close"]`. -/
def detect_signal (df : List Row) : Option (SignalDir × ℚ) :=
  if df.length < 2 then none
  else
    let prev := df.getD (df.length - 2) default
    let curr := df.getD (df.length - 1) default
    if callCond prev curr then some (.buyCall, curr.close)
    else if putCond prev curr then some (.buyPut, curr.close)
    else none

/-- Whether a detector result is a BUY_CALL. -/
def isBuyCall : Option (SignalDir × ℚ) → Bool
  | some (.buyCall, _) => true
  | _ => false

/-- A BUY_CALL fires at index `j` of a series: evaluating the detector on the
prefix ending at row `j` (the evaluation whose `curr` is row `j`) yields
BUY_CALL. -/
def firesBuyCall (df : List Row) (j : ℕ) : Prop :=
  j < df.length ∧ isBuyCall (detect_signal (df.take (j + 1))) = true

instance (df : List Row) (j : ℕ) : Decidable (firesBuyCall df j) := by
  unfold firesBuyCall; infer_instance

/-- The EMA/VWAP pair crosses upward at index `j`: at `j-1` the EMA is at or
below the VWAP, at `j` it is strictly above. -/
def upCross (df : List Row) (j : ℕ) : Prop :=
  1 ≤ j ∧ j < df.length ∧
  (df.getD (j - 1) default).ema ≤ (df.getD (j - 1) default).vwap ∧
  (df.getD j default).ema > (df.getD j default).vwap

instance (df : List Row) (j : ℕ) : Decidable (upCross df j) := by
  unfold upCross; infer_instance

/-- The EMA/VWAP pair crosses upward exactly once, at index `i`. -/
def upCrossOnce (df : List Row) (i : ℕ) : Prop :=
  upCross df i ∧ ∀ j < df.length, upCross df j → j = i

instance (df : List Row) (i : ℕ) : Decidable (upCrossOnce df i) := by
  unfold upCrossOnce; infer_instance

/-! ## Indicator engine: session VWAP and EMA -/

/-- One OHLCV bar of the per-instrument series (the CSV rows fed to
`calculate_vwap` / `calculate_ema`).  `ts` is the timestamp in seconds;
volumes are naturals, mirroring `int(quote.get('v', 0))`. -/
structure Bar where
  ts : ℕ
  openP : ℚ
  high : ℚ
  low : ℚ
  close : ℚ
  volume : ℕ
deriving DecidableEq, Repr

instance : Inhabited Bar := ⟨⟨0, 0, 0, 0, 0, 0⟩⟩

/-- The session date of a timestamp, as `pd.to_datetime(df["datetime"]).dt.date`
buckets rows: one bucket per whole day. -/
def sessionDate (ts : ℕ) : ℕ := ts / 86400

/-- Typical price `(high + low + close) / 3` (line 210). -/
def typical (b : Bar) : ℚ := (b.high + b.low + b.close) / 3

/-- Volume with the zero-substitution of line 212
(`df.loc[df["volume"] == 0, "volume"] = 1`). -/
def adjVol (b : Bar) : ℚ := if b.volume = 0 then 1 else (b.volume : ℚ)

/-- Typical price times (adjusted) volume, column `tpv` of line 214. -/
def tpv (b : Bar) : ℚ := typical b * adjVol b

/-- Per-date accumulator lookup for the groupby-cumsum state: maps a session
date to its running `(cum_vol, cum_tpv)` pair, `(0, 0)` for unseen dates. -/
def lookupD : List (ℕ × ℚ × ℚ) → ℕ → ℚ × ℚ
  | [], _ => (0, 0)
  | (d', p) :: rest, d => if d = d' then p else lookupD rest d

/-- Per-date accumulator update: the new pair shadows any older entry. -/
def updateD (acc : List (ℕ × ℚ × ℚ)) (d : ℕ) (p : ℚ × ℚ) : List (ℕ × ℚ × ℚ) :=
  (d, p) :: acc

/-- The `groupby("date").cumsum()` pass of lines 215–218: walk the rows in
order, and for each row emit `cum_tpv / cum_vol` of its own session date.
The subsequent `ffill().bfill()` of line 219 is the identity here: every
adjusted volume is at least 1, so no quotient is undefined. -/
def vwapFold (acc : List (ℕ × ℚ × ℚ)) : List Bar → List ℚ
  | [] => []
  | b :: rest =>
    let d := sessionDate b.ts
    let cv := (lookupD acc d).1 + adjVol b
    let ct := (lookupD acc d).2 + tpv b
    (ct / cv) :: vwapFold (updateD acc d (cv, ct)) rest

/-- `TradingStrategy.calculate_vwap` (lines 205–223): series with fewer than
two rows are returned without a `vwap` column (`none`); otherwise the
per-session cumulative quotient is attached to every row. -/
def calculate_vwap (df : List Bar) : Option (List ℚ) :=
  if df.length < 2 then none else some (vwapFold [] df)

/-- Modelled from the spec's formula (§4.1, §8): the rows at indices `≤ i`
that share row `i`'s session date — the range of both cumulative sums that
are claimed to produce the VWAP at row `i`. -/
def sessionSlice (df : List Bar) (i : ℕ) : List Bar :=
  (df.take (i + 1)).filter
    (fun b => sessionDate b.ts = sessionDate (df.getD i default).ts)

/-- EMA smoothing factor `k = 2 / (span + 1)` with the fixed span
`Config.EMA_PERIOD = 5` (lines 191, 227). -/
def emaK : ℚ := 2 / (5 + 1)

/-- The `ewm(span=5, adjust=False).mean()` recurrence after the seed:
`ema[t] = ema[t-1] + k·(close[t] − ema[t-1])`. -/
def emaFold (prev : ℚ) : List ℚ → List ℚ
  | [] => []
  | c :: rest =>
    let e := prev + emaK * (c - prev)
    e :: emaFold e rest

/-- `TradingStrategy.calculate_ema` (lines 225–229): seeded from the first
close.  The `bfill()` of line 228 is the identity (no missing values). -/
def calculate_ema : List ℚ → List ℚ
  | [] => []
  | c :: rest => c :: emaFold c rest

/-- Zip the EMA, VWAP and close columns back into detector rows. -/
def mkRows : List ℚ → List ℚ → List ℚ → List Row
  | e :: es, v :: vs, c :: cs => ⟨e, v, c⟩ :: mkRows es vs cs
  | _, _, _ => []

/-- The indicator pipeline applied before signal detection
(`calculate_ema(calculate_vwap(df))`, line 519). -/
def indicatorRows (df : List Bar) : List Row :=
  mkRows (calculate_ema (df.map (fun b => b.close))) (vwapFold [] df)
    (df.map (fun b => b.close))

/-! ## Position lifecycle and orchestration -/

/-- The tunables of `class Config` (lines 190–195) that the lifecycle logic
reads.  In the source the percentage fields already hold fractions
(`price * (1 + Config.TP_PERCENT)`). -/
structure Config where
  SL_PERCENT : ℚ
  TP_PERCENT : ℚ
  TRAILING_SL_PERCENT : ℚ
  COMMISSION : ℚ
  MAX_DAILY_LOSS : ℚ
deriving DecidableEq, Repr

/-- The constants actually shipped in `class Config` (lines 191–194):
`SL_PERCENT = 0; TP_PERCENT = 0.60; TRAILING_SL_PERCENT = 0.30;
COMMISSION = 0.0003; MAX_DAILY_LOSS = 5000`. -/
def liveConfig : Config :=
  { SL_PERCENT := 0
    TP_PERCENT := 6 / 10
    TRAILING_SL_PERCENT := 3 / 10
    COMMISSION := 3 / 10000
    MAX_DAILY_LOSS := 5000 }

/-- An open position as stored in `self.positions` (lines 320–339).
Bookkeeping-only fields of the source dict (`trade_no`, `order_id`,
`entry_time`, `type`, `exit_*`, `status`) are dropped: while a position is
in the open set its `status` is always `'OPEN'`.  `qty` is the lot size, a
positive integer in the source, carried as a rational for the PnL algebra. -/
structure Position where
  symbol : String
  entry : ℚ
  qty : ℚ
  sl : ℚ
  tp : ℚ
  high : ℚ
  low : ℚ
  current_sl : ℚ
  max_mtm : ℚ
  min_mtm : ℚ
deriving DecidableEq, Repr

/-- The fields `manage_positions` reads from a broker quote (lines 350–352):
`lp`, `high`, `low` (the `.get` defaults collapse once all three are given). -/
structure Quote where
  lp : ℚ
  high : ℚ
  low : ℚ
deriving DecidableEq, Repr

/-- The position dict built by `enter_trade` on a filled entry order
(lines 320–339): entry at the signal price, stop at `price·(1−slPct)` when a
stop percentage is configured and otherwise at the wide `price·0.5` floor,
target at `price·(1+tpPct)`, both water marks seeded at the entry price and
both mark-to-market extremes at zero. -/
def mkPosition (cfg : Config) (symbol : String) (price lot : ℚ) : Position :=
  { symbol := symbol
    entry := price
    qty := lot
    sl := if cfg.SL_PERCENT > 0 then price * (1 - cfg.SL_PERCENT) else price * (1 / 2)
    tp := price * (1 + cfg.TP_PERCENT)
    high := price
    low := price
    current_sl :=
      if cfg.SL_PERCENT > 0 then price * (1 - cfg.SL_PERCENT) else price * (1 / 2)
    max_mtm := 0
    min_mtm := 0 }

/-- The per-tick state update of `manage_positions` (lines 354–361): ratchet
the high/low water marks, recompute the mark-to-market extremes from them,
and — only when both a trailing percentage and a base stop percentage are
configured — ratchet `current_sl` against `high·(1−trailingPct)` computed
from the updated high water mark. -/
def tickUpdate (cfg : Config) (pos : Position) (q : Quote) : Position :=
  let high' := max pos.high q.high
  let low' := min pos.low q.low
  let pos' :=
    { pos with
      high := high'
      low := low'
      max_mtm := max pos.max_mtm ((high' - pos.entry) * pos.qty)
      min_mtm := min pos.min_mtm ((low' - pos.entry) * pos.qty) }
  if cfg.TRAILING_SL_PERCENT > 0 ∧ cfg.SL_PERCENT > 0 then
    { pos' with
      current_sl := max pos'.current_sl (high' * (1 - cfg.TRAILING_SL_PERCENT)) }
  else pos'

/-- Exit reasons of `manage_positions` (lines 363–369). -/
inductive ExitReason
  | SL
  | TP
  | EOD
deriving DecidableEq, Repr

/-- The exit decision chain of lines 363–369, evaluated on the already
updated position: SL (at the current stop, only when a base stop percentage
is configured), else TP (at the target), else EOD (at the last price) when
the clock is outside trading hours, else no exit.  `inHours` is the value of
`self.in_trading_hours()` at this evaluation. -/
def exitCheck (cfg : Config) (inHours : Bool) (pos : Position) (q : Quote) :
    Option (ExitReason × ℚ) :=
  if cfg.SL_PERCENT > 0 ∧ q.low ≤ pos.current_sl then some (.SL, pos.current_sl)
  else if q.high ≥ pos.tp then some (.TP, pos.tp)
  else if inHours = false then some (.EOD, q.lp)
  else none

/-- One position's slice of `manage_positions` (lines 345–372): without a
usable quote (`not quote or quote.get('stat') != 'Ok'`) the position is left
untouched; otherwise it is tick-updated and then checked for an exit. -/
def manageTick (cfg : Config) (inHours : Bool) (pos : Position)
    (q? : Option Quote) : Position × Option (ExitReason × ℚ) :=
  match q? with
  | none => (pos, none)
  | some q =>
    let pos' := tickUpdate cfg pos q
    (pos', exitCheck cfg inHours pos' q)

/-- The realized-PnL formula of `close_position` (lines 385–386):
`(exit − entry)·qty` minus the commission `(entry + exit)·qty·rate`. -/
def closePnl (cfg : Config) (entry exitPrice qty : ℚ) : ℚ :=
  (exitPrice - entry) * qty - (entry + exitPrice) * qty * cfg.COMMISSION

/-- Observable actions of one orchestrator cycle.  An `entryAttempt` is a
call to `enter_trade`; `entryPlaced` additionally records that the entry
order filled and the position was added. -/
inductive Event
  | exitEv (symbol : String) (reason : ExitReason) (price : ℚ)
  | entryAttempt (symbol : String) (dir : SignalDir)
  | entryPlaced (symbol : String) (dir : SignalDir)
deriving DecidableEq, Repr

/-- `manage_positions` over the snapshot of the open set
(`list(self.positions.items())`, line 346), threading `self.pnl`: a position
with an exit is closed — its realized PnL added to the daily total and the
position removed (lines 371–372, 374–411; the external sell order and ledger
append of `close_position` are side effects outside this state) — and any
other position stays, tick-updated. -/
def managePositions (cfg : Config) (inHours : Bool)
    (quotes : String → Option Quote) :
    List Position → ℚ → List Position × ℚ × List Event
  | [], pnl => ([], pnl, [])
  | pos :: rest, pnl =>
    let pr := manageTick cfg inHours pos (quotes pos.symbol)
    match pr.2 with
    | none =>
      let r := managePositions cfg inHours quotes rest pnl
      (pr.1 :: r.1, r.2.1, r.2.2)
    | some (reason, price) =>
      let r := managePositions cfg inHours quotes rest
        (pnl + closePnl cfg pr.1.entry price pr.1.qty)
      (r.1, r.2.1, .exitEv pr.1.symbol reason price :: r.2.2)

/-- An instrument of `self.instruments` (lines 456–462): the fields the
entry loop reads. -/
structure Instrument where
  symbol : String
  lot_size : ℚ
deriving DecidableEq, Repr

/-- The entry loop of `run` (lines 695–708), folded over the instrument
universe.  `sig` abstracts `detect_signal(self.data_cache[symbol])` together
with its data-readiness guard (line 697): `none` when no qualifying signal
exists this cycle.  `orderOk` abstracts whether the market order placed by
`enter_trade` fills (line 317).  A signal leads to an entry attempt only if
no open position carries the symbol and the signal differs from the single
shared `self.last_signal`; a filled entry stores the new position and
overwrites that shared debounce state (lines 702–708). -/
def entryPhase (cfg : Config) (sig : String → Option (SignalDir × ℚ))
    (orderOk : String → Bool) :
    List Instrument → List Position → Option SignalDir → ℕ →
    List Position × Option SignalDir × ℕ × List Event
  | [], ps, lastSig, trades => (ps, lastSig, trades, [])
  | inst :: rest, ps, lastSig, trades =>
    match sig inst.symbol with
    | none => entryPhase cfg sig orderOk rest ps lastSig trades
    | some (dir, price) =>
      if ps.any (fun p => p.symbol == inst.symbol) then
        entryPhase cfg sig orderOk rest ps lastSig trades
      else if some dir = lastSig then
        entryPhase cfg sig orderOk rest ps lastSig trades
      else if orderOk inst.symbol then
        let r :=
          entryPhase cfg sig orderOk rest
            (ps ++ [mkPosition cfg inst.symbol price inst.lot_size])
            (some dir) (trades + 1)
        (r.1, r.2.1, r.2.2.1, .entryAttempt inst.symbol dir ::
          .entryPlaced inst.symbol dir :: r.2.2.2)
      else
        let r := entryPhase cfg sig orderOk rest ps lastSig trades
        (r.1, r.2.1, r.2.2.1, .entryAttempt inst.symbol dir :: r.2.2.2)

/-- The mutable strategy state owned by the main loop of `run`
(lines 199–203): the open-position set, the cumulative daily PnL
(`self.pnl`), the globally shared last acted-on signal, the trade counter
and the running flag. -/
structure StratState where
  positions : List Position
  pnl : ℚ
  last_signal : Option SignalDir
  trades : ℕ
  running : Bool
deriving DecidableEq, Repr

/-- The state at the start of a session (`__init__`, lines 199–203). -/
def initState : StratState :=
  { positions := [], pnl := 0, last_signal := none, trades := 0, running := true }

/-- Everything one cycle of the main loop reads from the outside world.
`inHoursLoop` is `in_trading_hours()` at the top of the loop (line 677);
`inHoursExit` is its value when the EOD exit branch re-samples the clock
(line 368) — real time advances between the two calls. -/
structure CycleInput where
  inHoursLoop : Bool
  inHoursExit : Bool
  quotes : String → Option Quote
  sig : String → Option (SignalDir × ℚ)
  orderOk : String → Bool

/-- One cycle of the `while self.running` loop of `run` (lines 676–710):
outside trading hours the cycle only sleeps; with the daily loss limit
breached the loop `break`s (line 681–683) — nothing else in the cycle runs;
otherwise `manage_positions` ticks every open position and the entry loop
follows.  The interactive `msvcrt` key polling (lines 685–691) is dropped. -/
def cycle (cfg : Config) (insts : List Instrument) (inp : CycleInput)
    (s : StratState) : StratState × List Event :=
  if s.running = false then (s, [])
  else if inp.inHoursLoop = false then (s, [])
  else if s.pnl ≤ -cfg.MAX_DAILY_LOSS then ({ s with running := false }, [])
  else
    let m := managePositions cfg inp.inHoursExit inp.quotes s.positions s.pnl
    let e := entryPhase cfg inp.sig inp.orderOk insts m.1 s.last_signal s.trades
    ({ positions := e.1, pnl := m.2.1, last_signal := e.2.1, trades := e.2.2.1,
       running := true }, m.2.2 ++ e.2.2.2)

/-- Iterated cycles of the main loop, accumulating the emitted events. -/
def runCycles (cfg : Config) (insts : List Instrument) :
    StratState → List CycleInput → StratState × List Event
  | s, [] => (s, [])
  | s, inp :: rest =>
    let c := cycle cfg insts inp s
    let r := runCycles cfg insts c.1 rest
    (r.1, c.2 ++ r.2)

/-- Whether an event is an entry action (attempted or placed). -/
def isEntryEv : Event → Bool
  | .entryAttempt _ _ => true
  | .entryPlaced _ _ => true
  | _ => false

/-! ## Concrete scenarios used by witnesses and counterexamples -/

/-- Two bars of one session: the EMA crosses the VWAP upward on the second
bar while the close dips below both. -/
def c1df : List Bar := [⟨0, 100, 100, 100, 100, 1⟩, ⟨60, 90, 90, 90, 90, 2⟩]

/-- Two detector rows satisfying the BUY_CALL condition. -/
def w2rows : List Row := [⟨1, 2, 0⟩, ⟨3, 2, 4⟩]

/-- Instruments of distinct symbols for the debounce scenarios. -/
def iA : Instrument := ⟨"A", 75⟩

/-- Second instrument for the debounce scenarios. -/
def iB : Instrument := ⟨"B", 75⟩

/-- A cycle input where every instrument shows a fresh BUY_CALL signal and
entry orders always fill; no open position receives a quote. -/
def inpC2 : CycleInput :=
  { inHoursLoop := true
    inHoursExit := true
    quotes := fun _ => none
    sig := fun _ => some (.buyCall, 10)
    orderOk := fun _ => true }

/-- An open position bought at 100 with stop 50 and target 160. -/
def posX : Position :=
  { symbol := "X", entry := 100, qty := 75, sl := 50, tp := 160,
    high := 100, low := 100, current_sl := 50, max_mtm := 0, min_mtm := 0 }

/-- A quote whose low pierces `posX`'s stop. -/
def qLow : Quote := ⟨45, 100, 40⟩

/-- A quote whose high clears `posX`'s target. -/
def qHigh : Quote := ⟨170, 170, 165⟩

/-- A configuration with a base stop percentage, so SL exits are armed. -/
def cfg8 : Config :=
  { SL_PERCENT := 1 / 2, TP_PERCENT := 6 / 10, TRAILING_SL_PERCENT := 0,
    COMMISSION := 3 / 10000, MAX_DAILY_LOSS := 5000 }

/-- A configuration with both a base stop and a trailing percentage. -/
def cfgT : Config :=
  { SL_PERCENT := 1 / 10, TP_PERCENT := 6 / 10, TRAILING_SL_PERCENT := 3 / 10,
    COMMISSION := 3 / 10000, MAX_DAILY_LOSS := 5000 }

/-- State whose daily PnL is 1000 short of the loss limit, holding `posX`. -/
def s8 : StratState :=
  { positions := [posX], pnl := -4000, last_signal := none, trades := 1,
    running := true }

/-- State that already breached the daily loss limit, holding `posX`. -/
def s3 : StratState :=
  { positions := [posX], pnl := -5000, last_signal := none, trades := 1,
    running := true }

/-- State after three closed trades of −2000 each, flat and still running. -/
def s8w : StratState :=
  { positions := [], pnl := -2000 + -2000 + -2000, last_signal := none,
    trades := 3, running := true }

/-- Cycle input for the mid-cycle-breach scenario: `posX`'s quote fires its
stop, a fresh BUY_CALL waits on instrument Y, orders fill. -/
def inp8 : CycleInput :=
  { inHoursLoop := true
    inHoursExit := true
    quotes := fun sym => if sym = "X" then some qLow else none
    sig := fun sym => if sym = "Y" then some (.buyCall, 10) else none
    orderOk := fun _ => true }

/-- Cycle input for the breached-state scenario: `posX`'s quote clears its
target, no signals pending. -/
def inp3 : CycleInput :=
  { inHoursLoop := true
    inHoursExit := true
    quotes := fun _ => some qHigh
    sig := fun _ => none
    orderOk := fun _ => true }

/-- Three-bar series across a session change, with one zero volume. -/
def df7 : List Bar :=
  [⟨0, 10, 12, 8, 10, 2⟩, ⟨60, 10, 14, 10, 12, 0⟩, ⟨86400, 20, 22, 18, 20, 3⟩]

/-! ## Helper lemmas -/

lemma tickUpdate_symbol (cfg : Config) (pos : Position) (q : Quote) :
    (tickUpdate cfg pos q).symbol = pos.symbol := by
  unfold tickUpdate
  split <;> rfl

lemma tickUpdate_tp (cfg : Config) (pos : Position) (q : Quote) :
    (tickUpdate cfg pos q).tp = pos.tp := by
  unfold tickUpdate
  split <;> rfl

lemma tickUpdate_sl_mono (cfg : Config) (pos : Position) (q : Quote) :
    pos.current_sl ≤ (tickUpdate cfg pos q).current_sl := by
  unfold tickUpdate
  split
  · exact le_max_left _ _
  · exact le_refl _

lemma foldl_sl_mono (cfg : Config) (pos : Position) (qs : List Quote) :
    pos.current_sl ≤ (qs.foldl (tickUpdate cfg) pos).current_sl := by
  induction qs generalizing pos with
  | nil => exact le_refl _
  | cons q rest ih =>
    exact le_trans (tickUpdate_sl_mono cfg pos q) (ih (tickUpdate cfg pos q))

lemma tickUpdate_current_sl_eq (cfg : Config) (pos : Position) (q : Quote)
    (ht : cfg.TRAILING_SL_PERCENT > 0) (hs : cfg.SL_PERCENT > 0) :
    (tickUpdate cfg pos q).current_sl
      = max pos.current_sl (max pos.high q.high * (1 - cfg.TRAILING_SL_PERCENT)) := by
  unfold tickUpdate
  rw [if_pos ⟨ht, hs⟩]

/-! ## Claims -/

/-- **C6.** `close_position` computes realized PnL as
`(exit − entry)·qty − (entry + exit)·qty·commissionRate`; closing at an
exit price equal to the entry price, with a positive commission rate,
positive entry and positive quantity, yields exactly the negated round-trip
commission — strictly negative, not zero. -/
theorem close_pnl_breakeven (cfg : Config) (entry qty : ℚ)
    (hc : cfg.COMMISSION > 0) (he : entry > 0) (hq : qty > 0) :
    closePnl cfg entry entry qty = -((entry + entry) * qty * cfg.COMMISSION) ∧
    closePnl cfg entry entry qty < 0 := by
  unfold closePnl
  constructor
  · ring
  · have hpos : (entry + entry) * qty * cfg.COMMISSION > 0 := by positivity
    nlinarith

/-- Witness for C6 at the shipped commission rate 0.0003, entry 100 and the
NIFTY lot size 75. -/
theorem close_pnl_breakeven_w :
    closePnl liveConfig 100 100 75 = -((100 + 100) * 75 * liveConfig.COMMISSION) ∧
    closePnl liveConfig 100 100 75 < 0 :=
  close_pnl_breakeven liveConfig 100 75 (by norm_num [liveConfig]) (by norm_num)
    (by norm_num)

/-- **C5.** With both a trailing percentage and a base stop-loss percentage
configured, each tick ratchets `current_sl` to
`max(current_sl, high·(1−trailingPct))` (with `high` the updated high water
mark), and across any two tick sequences the stop never loosens: after more
ticks the stop is at least what it was after fewer. -/
theorem trailing_sl_monotone (cfg : Config) (pos : Position) (q : Quote)
    (qs qs' : List Quote)
    (ht : cfg.TRAILING_SL_PERCENT > 0) (hs : cfg.SL_PERCENT > 0) :
    (tickUpdate cfg pos q).current_sl
      = max pos.current_sl (max pos.high q.high * (1 - cfg.TRAILING_SL_PERCENT)) ∧
    (qs.foldl (tickUpdate cfg) pos).current_sl
      ≤ ((qs ++ qs').foldl (tickUpdate cfg) pos).current_sl := by
  refine ⟨tickUpdate_current_sl_eq cfg pos q ht hs, ?_⟩
  rw [List.foldl_append]
  exact foldl_sl_mono cfg (qs.foldl (tickUpdate cfg) pos) qs'

/-- A quote that lifts `posX`'s high water mark to 120. -/
def qUp : Quote := ⟨115, 120, 110⟩

/-- A quote that falls back to the entry region. -/
def qDown : Quote := ⟨100, 100, 90⟩

/-- Witness for C5: a configuration with 10% stop and 30% trail, one tick
that lifts the high water mark to 120 and so the stop toward 84. -/
theorem trailing_sl_monotone_w :
    (tickUpdate cfgT posX qUp).current_sl
      = max posX.current_sl
          (max posX.high qUp.high * (1 - cfgT.TRAILING_SL_PERCENT)) ∧
    (([qUp] : List Quote).foldl (tickUpdate cfgT) posX).current_sl
      ≤ ((([qUp] : List Quote) ++ [qDown]).foldl
          (tickUpdate cfgT) posX).current_sl :=
  trailing_sl_monotone cfgT posX qUp [qUp] [qDown]
    (by norm_num [cfgT]) (by norm_num [cfgT])

lemma tickUpdate_watermarks_step (cfg : Config) (pos : Position) (q : Quote) :
    pos.high ≤ (tickUpdate cfg pos q).high ∧
    (tickUpdate cfg pos q).low ≤ pos.low ∧
    pos.max_mtm ≤ (tickUpdate cfg pos q).max_mtm ∧
    (tickUpdate cfg pos q).min_mtm ≤ pos.min_mtm := by
  unfold tickUpdate
  split <;>
    exact ⟨le_max_left _ _, min_le_left _ _, le_max_left _ _, min_le_left _ _⟩

lemma foldl_watermarks_mono (cfg : Config) (pos : Position) (qs : List Quote) :
    pos.high ≤ (qs.foldl (tickUpdate cfg) pos).high ∧
    (qs.foldl (tickUpdate cfg) pos).low ≤ pos.low ∧
    pos.max_mtm ≤ (qs.foldl (tickUpdate cfg) pos).max_mtm ∧
    (qs.foldl (tickUpdate cfg) pos).min_mtm ≤ pos.min_mtm := by
  induction qs generalizing pos with
  | nil => exact ⟨le_refl _, le_refl _, le_refl _, le_refl _⟩
  | cons q rest ih =>
    have hstep := tickUpdate_watermarks_step cfg pos q
    have hrest := ih (tickUpdate cfg pos q)
    exact ⟨le_trans hstep.1 hrest.1, le_trans hrest.2.1 hstep.2.1,
      le_trans hstep.2.2.1 hrest.2.2.1, le_trans hrest.2.2.2 hstep.2.2.2⟩

/-- **C10.** The high water mark starts at the entry price and never
decreases; the low water mark starts at the entry price and never
increases; the mark-to-market extremes start at zero, `max_mtm` never
decreases and `min_mtm` never increases; hence `max_mtm ≥ 0 ≥ min_mtm`
holds after `enter_trade` and is preserved by every tick. -/
theorem watermark_invariants (cfg : Config) (sym : String) (price lot : ℚ)
    (pos : Position) (q : Quote) (qs qs' : List Quote) :
    (mkPosition cfg sym price lot).high = price ∧
    (mkPosition cfg sym price lot).low = price ∧
    (mkPosition cfg sym price lot).entry = price ∧
    (mkPosition cfg sym price lot).max_mtm = 0 ∧
    (mkPosition cfg sym price lot).min_mtm = 0 ∧
    pos.high ≤ (tickUpdate cfg pos q).high ∧
    (tickUpdate cfg pos q).low ≤ pos.low ∧
    pos.max_mtm ≤ (tickUpdate cfg pos q).max_mtm ∧
    (tickUpdate cfg pos q).min_mtm ≤ pos.min_mtm ∧
    (qs.foldl (tickUpdate cfg) pos).high
      ≤ ((qs ++ qs').foldl (tickUpdate cfg) pos).high ∧
    ((qs ++ qs').foldl (tickUpdate cfg) pos).low
      ≤ (qs.foldl (tickUpdate cfg) pos).low ∧
    (qs.foldl (tickUpdate cfg) pos).max_mtm
      ≤ ((qs ++ qs').foldl (tickUpdate cfg) pos).max_mtm ∧
    ((qs ++ qs').foldl (tickUpdate cfg) pos).min_mtm
      ≤ (qs.foldl (tickUpdate cfg) pos).min_mtm ∧
    0 ≤ (qs.foldl (tickUpdate cfg) (mkPosition cfg sym price lot)).max_mtm ∧
    (qs.foldl (tickUpdate cfg) (mkPosition cfg sym price lot)).min_mtm ≤ 0 := by
  have hstep := tickUpdate_watermarks_step cfg pos q
  have happ := foldl_watermarks_mono cfg (qs.foldl (tickUpdate cfg) pos) qs'
  have hmk := foldl_watermarks_mono cfg (mkPosition cfg sym price lot) qs
  rw [List.foldl_append]
  refine ⟨rfl, rfl, rfl, rfl, rfl, hstep.1, hstep.2.1, hstep.2.2.1, hstep.2.2.2,
    happ.1, happ.2.1, happ.2.2.1, happ.2.2.2, ?_, ?_⟩
  · calc (0 : ℚ) = (mkPosition cfg sym price lot).max_mtm := rfl
      _ ≤ _ := hmk.2.2.1
  · calc (qs.foldl (tickUpdate cfg) (mkPosition cfg sym price lot)).min_mtm
        ≤ (mkPosition cfg sym price lot).min_mtm := hmk.2.2.2
      _ = 0 := rfl

/-- **C4 (amended).** On a tick with a usable quote, the updated position is
the water-mark/trailing update, and the exit decision is first-match-wins in
the order SL, TP, EOD — where the SL branch additionally requires a base
stop-loss percentage to be configured (`SL_PERCENT > 0`), which the claim as
stated omits. -/
theorem exit_priority (cfg : Config) (hrs : Bool) (pos : Position) (q : Quote) :
    ((manageTick cfg hrs pos (some q)).1 = tickUpdate cfg pos q) ∧
    ((manageTick cfg hrs pos (some q)).2
        = some (.SL, (tickUpdate cfg pos q).current_sl)
      ↔ cfg.SL_PERCENT > 0 ∧ q.low ≤ (tickUpdate cfg pos q).current_sl) ∧
    ((manageTick cfg hrs pos (some q)).2 = some (.TP, pos.tp)
      ↔ ¬(cfg.SL_PERCENT > 0 ∧ q.low ≤ (tickUpdate cfg pos q).current_sl)
        ∧ q.high ≥ pos.tp) ∧
    ((manageTick cfg hrs pos (some q)).2 = some (.EOD, q.lp)
      ↔ ¬(cfg.SL_PERCENT > 0 ∧ q.low ≤ (tickUpdate cfg pos q).current_sl)
        ∧ ¬(q.high ≥ pos.tp) ∧ hrs = false) ∧
    ((manageTick cfg hrs pos (some q)).2 = none
      ↔ ¬(cfg.SL_PERCENT > 0 ∧ q.low ≤ (tickUpdate cfg pos q).current_sl)
        ∧ ¬(q.high ≥ pos.tp) ∧ hrs = true) := by
  have htp := tickUpdate_tp cfg pos q
  simp only [manageTick, exitCheck, htp]
  split_ifs with h1 h2 h3 <;> simp_all

/-- Witness for C4's amended theorem: under the shipped configuration, a
tick whose low pierces the stop but whose high misses the target, inside
trading hours, yields no exit. -/
theorem exit_priority_w :
    (manageTick liveConfig true posX (some qLow)).2 = none :=
  ((exit_priority liveConfig true posX qLow).2.2.2.2).mpr
    (by norm_num [liveConfig, posX, qLow, tickUpdate])

/-- Counterexample for C4 as stated: under the shipped configuration
(`SL_PERCENT = 0`), a tick low at or below `current_sl` does **not** close
the position with reason SL — the SL branch is disabled, and the tick
yields no exit at all. -/
theorem exit_order_cex :
    liveConfig.SL_PERCENT = 0 ∧
    qLow.low ≤ (tickUpdate liveConfig posX qLow).current_sl ∧
    (manageTick liveConfig true posX (some qLow)).2 = none := by
  norm_num [manageTick, tickUpdate, exitCheck, liveConfig, posX, qLow]

lemma cycle_not_running (cfg : Config) (insts : List Instrument)
    (inp : CycleInput) (s : StratState) (h : s.running = false) :
    cycle cfg insts inp s = (s, []) := by
  unfold cycle
  rw [if_pos h]

/-- **C3 (amended).** Once a cycle starts with the daily loss limit
breached, the loop halts: open positions are not force-closed by the breach
— the state is returned with only the running flag cleared — but they are
also no longer tick-managed, and with the loop stopped no cycle runs any
SL/TP/EOD evaluation again. -/
theorem breach_halts_loop :
    (∀ (cfg : Config) (insts : List Instrument) (inp : CycleInput)
        (s : StratState), s.running = true → inp.inHoursLoop = true →
        s.pnl ≤ -cfg.MAX_DAILY_LOSS →
        cycle cfg insts inp s = ({ s with running := false }, [])) ∧
    (∀ (cfg : Config) (insts : List Instrument) (s : StratState)
        (inps : List CycleInput), s.running = false →
        runCycles cfg insts s inps = (s, [])) := by
  constructor
  · intro cfg insts inp s hr hh hp
    unfold cycle
    rw [if_neg (by simp [hr]), if_neg (by simp [hh]), if_pos hp]
  · intro cfg insts s inps hr
    induction inps with
    | nil => rfl
    | cons inp rest ih =>
      unfold runCycles
      rw [cycle_not_running cfg insts inp s hr]
      simpa using ih

/-- Witness for C3's amended theorem at the breached state `s3`. -/
theorem breach_halts_loop_w :
    cycle liveConfig [] inp3 s3 = ({ s3 with running := false }, []) :=
  breach_halts_loop.1 liveConfig [] inp3 s3 rfl rfl
    (by norm_num [s3, liveConfig])

/-- Counterexample for C3 as stated: in the breached state `s3` the open
position's own TP condition holds on the pending quote — a tick would close
it with reason TP — yet the cycle halts without managing it: the position
set is returned unchanged, no exit event is emitted, and the loop stops. -/
theorem breach_no_tick_cex :
    s3.pnl ≤ -liveConfig.MAX_DAILY_LOSS ∧
    (manageTick liveConfig true posX (inp3.quotes "X")).2
      = some (.TP, posX.tp) ∧
    cycle liveConfig [] inp3 s3 = ({ s3 with running := false }, []) := by
  norm_num [manageTick, tickUpdate, exitCheck, liveConfig, posX, qHigh, inp3,
    cycle, s3]

/-- **C2 (amended).** The debounce state is one global last-acted-on signal
shared by all instruments: when the stored signal is `d` and every signal
detected this pass equals `d`, the entry loop attempts no entry on any
instrument — regardless of which instruments are flat — and leaves the
state unchanged. -/
theorem entryPhase_global_debounce (cfg : Config)
    (sig : String → Option (SignalDir × ℚ)) (orderOk : String → Bool)
    (insts : List Instrument) (ps : List Position) (d : SignalDir) (tr : ℕ)
    (h : ∀ sym dir p, sig sym = some (dir, p) → dir = d) :
    entryPhase cfg sig orderOk insts ps (some d) tr = (ps, some d, tr, []) := by
  induction insts with
  | nil => rfl
  | cons inst rest ih =>
    cases hs : sig inst.symbol with
    | none => simp [entryPhase, hs, ih]
    | some dp =>
      obtain ⟨dir, p⟩ := dp
      have hd := h inst.symbol dir p hs
      subst hd
      simp [entryPhase, hs, ih]

/-- Witness for C2's amended theorem: with BUY_CALL already the global
last-acted-on signal and both instruments flat but signalling BUY_CALL, no
entry is attempted. -/
theorem entryPhase_global_debounce_w :
    entryPhase liveConfig (fun _ => some (.buyCall, 10)) (fun _ => true)
      [iA, iB] [] (some .buyCall) 0 = ([], some .buyCall, 0, []) :=
  entryPhase_global_debounce liveConfig (fun _ => some (.buyCall, 10))
    (fun _ => true) [iA, iB] [] .buyCall 0
    (fun _ dir p hsp => by
      injection hsp with h'
      exact (congrArg Prod.fst h').symm)

/-- Counterexample for C2 as stated: both instruments A and B emit BUY_CALL
in the same cycle from a fresh state.  A (processed first) is entered and
sets the shared `last_signal`; B — which has no open position and has never
itself acted on any signal — gets no entry attempt.  Run with B alone, the
very same cycle input does attempt and place B's entry, so it is A's
acted-on signal that suppressed B. -/
theorem global_debounce_cex :
    (cycle liveConfig [iA, iB] inpC2 initState).2
      = [.entryAttempt "A" .buyCall, .entryPlaced "A" .buyCall] ∧
    ((cycle liveConfig [iA, iB] inpC2 initState).1.positions.map
        (fun p => p.symbol)) = ["A"] ∧
    (cycle liveConfig [iB] inpC2 initState).2
      = [.entryAttempt "B" .buyCall, .entryPlaced "B" .buyCall] := by
  norm_num [cycle, initState, inpC2, iA, iB, entryPhase, managePositions,
    mkPosition, liveConfig, Option.some_ne_none, reduceCtorEq]

lemma cycle_breached (cfg : Config) (insts : List Instrument)
    (inp : CycleInput) (s : StratState) (h : s.pnl ≤ -cfg.MAX_DAILY_LOSS) :
    (cycle cfg insts inp s).1.pnl = s.pnl ∧ (cycle cfg insts inp s).2 = [] := by
  unfold cycle
  split_ifs with h1 h2
  · exact ⟨rfl, rfl⟩
  · exact ⟨rfl, rfl⟩
  · exact ⟨rfl, rfl⟩

/-- **C8 (amended).** Once the daily PnL is at or below the negated loss
limit at a cycle boundary — where the breach check runs — no entry is
attempted or placed in that cycle or any later one (the next in-hours cycle
halts the loop).  The check runs once per cycle before `manage_positions`,
not immediately before each entry, so this guarantee attaches to cycle
boundaries. -/
theorem breach_blocks_entries (cfg : Config) (insts : List Instrument)
    (s : StratState) (inps : List CycleInput)
    (h : s.pnl ≤ -cfg.MAX_DAILY_LOSS) :
    (runCycles cfg insts s inps).2.filter isEntryEv = [] := by
  induction inps generalizing s with
  | nil => rfl
  | cons inp rest ih =>
    have hc := cycle_breached cfg insts inp s h
    have hrest := ih (cycle cfg insts inp s).1 (by rw [hc.1]; exact h)
    simp only [runCycles, List.filter_append, hc.2, hrest]
    rfl

/-- Witness for C8's amended theorem: after three closed trades of −2000
each against the shipped 5000 loss limit, a cycle whose input carries a
fresh BUY_CALL signal attempts no entry. -/
theorem breach_blocks_entries_w :
    s8w.pnl = -2000 + -2000 + -2000 ∧
    (runCycles liveConfig [iB] s8w [inpC2]).2.filter isEntryEv = [] :=
  ⟨rfl, breach_blocks_entries liveConfig [iB] s8w [inpC2]
    (by norm_num [s8w, liveConfig])⟩

/-- Counterexample for C8 as stated: starting a cycle 1000 inside the
budget, the SL exit fired by `manage_positions` pushes the daily PnL
through the limit mid-cycle, yet the very same cycle still places a new
entry on instrument Y afterwards — the breach does not stop entries "for
the remainder of the session" the moment it holds, only from the next
cycle boundary. -/
theorem mid_cycle_breach_entry_cex :
    -cfg8.MAX_DAILY_LOSS < s8.pnl ∧
    (managePositions cfg8 true inp8.quotes s8.positions s8.pnl).2.1
      ≤ -cfg8.MAX_DAILY_LOSS ∧
    (cycle cfg8 [⟨"Y", 75⟩] inp8 s8).2
      = [.exitEv "X" .SL 50, .entryAttempt "Y" .buyCall,
         .entryPlaced "Y" .buyCall] := by
  norm_num [cycle, s8, inp8, cfg8, posX, qLow, entryPhase, managePositions,
    manageTick, tickUpdate, exitCheck, closePnl, mkPosition,
    Option.some_ne_none, reduceCtorEq]

lemma manageTick_symbol (cfg : Config) (hrs : Bool) (pos : Position)
    (q? : Option Quote) : (manageTick cfg hrs pos q?).1.symbol = pos.symbol := by
  cases q? with
  | none => rfl
  | some q => exact tickUpdate_symbol cfg pos q

lemma managePositions_symbols_sublist (cfg : Config) (hrs : Bool)
    (quotes : String → Option Quote) (ps : List Position) : ∀ pnl : ℚ,
    ((managePositions cfg hrs quotes ps pnl).1.map (fun p => p.symbol)).Sublist
      (ps.map (fun p => p.symbol)) := by
  induction ps with
  | nil =>
    intro pnl
    simp [managePositions]
  | cons pos rest ih =>
    intro pnl
    cases hex : (manageTick cfg hrs pos (quotes pos.symbol)).2 with
    | none =>
      simp only [managePositions, hex, List.map_cons, manageTick_symbol]
      exact List.Sublist.cons₂ _ (ih pnl)
    | some rp =>
      obtain ⟨r, price⟩ := rp
      simp only [managePositions, hex, List.map_cons]
      exact List.Sublist.cons _ (ih _)

lemma entryPhase_nodup (cfg : Config) (sig : String → Option (SignalDir × ℚ))
    (orderOk : String → Bool) (insts : List Instrument) :
    ∀ (ps : List Position) (ls : Option SignalDir) (tr : ℕ),
    (ps.map (fun p => p.symbol)).Nodup →
    ((entryPhase cfg sig orderOk insts ps ls tr).1.map
        (fun p => p.symbol)).Nodup := by
  induction insts with
  | nil =>
    intro ps ls tr h
    simpa [entryPhase] using h
  | cons inst rest ih =>
    intro ps ls tr h
    cases hs : sig inst.symbol with
    | none => simpa [entryPhase, hs] using ih ps ls tr h
    | some dp =>
      obtain ⟨dir, price⟩ := dp
      by_cases hany : ps.any (fun p => p.symbol == inst.symbol) = true
      · simpa [entryPhase, hs, hany] using ih ps ls tr h
      · by_cases hls : some dir = ls
        · simpa [entryPhase, hs, hany, hls] using ih ps ls tr h
        · by_cases hok : orderOk inst.symbol = true
          · have hnotmem : inst.symbol ∉ ps.map (fun p => p.symbol) := by
              intro hmem
              obtain ⟨p, hp, hpe⟩ := List.mem_map.mp hmem
              exact hany (List.any_eq_true.mpr ⟨p, hp, by simp [hpe]⟩)
            have hnew : (((ps ++ [mkPosition cfg inst.symbol price
                inst.lot_size]).map (fun p => p.symbol))).Nodup := by
              simp only [List.map_append, List.map_cons, List.map_nil]
              rw [List.nodup_append]
              exact ⟨h, List.nodup_singleton _,
                by simpa [List.disjoint_singleton, mkPosition] using hnotmem⟩
            simpa [entryPhase, hs, hany, hls, hok] using
              ih _ (some dir) (tr + 1) hnew
          · simpa [entryPhase, hs, hany, hls, hok] using ih ps ls tr h

lemma cycle_nodup (cfg : Config) (insts : List Instrument) (inp : CycleInput)
    (s : StratState) (h : (s.positions.map (fun p => p.symbol)).Nodup) :
    ((cycle cfg insts inp s).1.positions.map (fun p => p.symbol)).Nodup := by
  unfold cycle
  split_ifs with h1 h2 h3
  · exact h
  · exact h
  · exact h
  · exact entryPhase_nodup cfg inp.sig inp.orderOk insts _ _ _
      (List.Nodup.sublist
        (managePositions_symbols_sublist cfg inp.inHoursExit inp.quotes
          s.positions s.pnl) h)

lemma runCycles_nodup (cfg : Config) (insts : List Instrument)
    (inps : List CycleInput) : ∀ s : StratState,
    (s.positions.map (fun p => p.symbol)).Nodup →
    ((runCycles cfg insts s inps).1.positions.map (fun p => p.symbol)).Nodup := by
  induction inps with
  | nil => intro s h; exact h
  | cons inp rest ih =>
    intro s h
    simp only [runCycles]
    exact ih _ (cycle_nodup cfg insts inp s h)

/-- **C9.** Starting from the fresh session state, after any sequence of
cycles — any schedule of quotes, signals, fills, closes and entries — the
open-position set never carries two positions on the same symbol: the
symbol list of the open set has no duplicates.  (Entries are guarded by the
`has_position` check of line 702, closes only remove, and tick updates keep
the symbol.) -/
theorem one_open_per_symbol (cfg : Config) (insts : List Instrument)
    (inps : List CycleInput) :
    ((runCycles cfg insts initState inps).1.positions.map
        (fun p => p.symbol)).Nodup :=
  runCycles_nodup cfg insts inps initState (by simp [initState])

/-- The invariant tying the groupby-cumsum accumulator to the rows already
processed: for every session date the stored pair is the pair of
(adjusted-volume, tpv) sums over the processed rows of that date. -/
def accModels (acc : List (ℕ × ℚ × ℚ)) (pre : List Bar) : Prop :=
  ∀ d : ℕ,
    lookupD acc d =
      (((pre.filter (fun b => sessionDate b.ts = d)).map adjVol).sum,
       ((pre.filter (fun b => sessionDate b.ts = d)).map tpv).sum)

lemma lookupD_updateD (acc : List (ℕ × ℚ × ℚ)) (d d' : ℕ) (p : ℚ × ℚ) :
    lookupD (updateD acc d p) d' = if d' = d then p else lookupD acc d' := by
  simp [updateD, lookupD]

lemma accModels_nil : accModels [] [] := by
  intro d
  simp [lookupD]

lemma accModels_step (acc : List (ℕ × ℚ × ℚ)) (pre : List Bar) (b : Bar)
    (hacc : accModels acc pre) :
    accModels
      (updateD acc (sessionDate b.ts)
        ((lookupD acc (sessionDate b.ts)).1 + adjVol b,
         (lookupD acc (sessionDate b.ts)).2 + tpv b))
      (pre ++ [b]) := by
  intro d
  rw [lookupD_updateD, hacc (sessionDate b.ts)]
  by_cases hd : d = sessionDate b.ts
  · rw [if_pos hd]
    subst hd
    simp [List.filter_append]
  · rw [if_neg hd, hacc d]
    have hbd : ¬ sessionDate b.ts = d := fun hs => hd hs.symm
    simp [List.filter_append, hbd]

lemma vwapFold_getD (rest : List Bar) : ∀ (pre : List Bar)
    (acc : List (ℕ × ℚ × ℚ)), accModels acc pre → ∀ i < rest.length,
    (vwapFold acc rest).getD i 0 =
      (((pre ++ rest.take (i + 1)).filter
          (fun b => sessionDate b.ts
            = sessionDate (rest.getD i default).ts)).map tpv).sum /
      (((pre ++ rest.take (i + 1)).filter
          (fun b => sessionDate b.ts
            = sessionDate (rest.getD i default).ts)).map adjVol).sum := by
  induction rest with
  | nil =>
    intro pre acc hacc i hi
    exact absurd hi (by simp)
  | cons b rest ih =>
    intro pre acc hacc i hi
    cases i with
    | zero =>
      simp only [vwapFold, List.getD_cons_zero, hacc (sessionDate b.ts)]
      simp [List.filter_append, add_comm]
    | succ i =>
      have hacc' := accModels_step acc pre b hacc
      have hi' : i < rest.length := by simpa using hi
      have h := ih (pre ++ [b]) _ hacc' i hi'
      simp only [vwapFold, List.getD_cons_succ, List.take_succ_cons,
        List.getD_cons_succ] at h ⊢
      rw [h, List.append_assoc]
      simp

/-- **C7.** For every OHLCV series with at least two rows (so that
`calculate_vwap` attaches a `vwap` column at all), appended in
non-decreasing timestamp order, the computed VWAP at each row equals
cumulative(typical·volume)/cumulative(volume) where the typical price is
`(high+low+close)/3`, zero volumes are first replaced by 1, and both
cumulative sums range over exactly the rows up to and including this one
that share its session date. -/
theorem calculate_vwap_spec (df : List Bar) (h2 : 2 ≤ df.length)
    (_hord : List.Chain' (fun a b => a.ts ≤ b.ts) df) (i : ℕ)
    (hi : i < df.length) :
    calculate_vwap df = some (vwapFold [] df) ∧
    (vwapFold [] df).getD i 0 =
      ((sessionSlice df i).map tpv).sum /
        ((sessionSlice df i).map adjVol).sum := by
  refine ⟨by unfold calculate_vwap; rw [if_neg (by omega)], ?_⟩
  have h := vwapFold_getD df [] [] accModels_nil i hi
  simpa [sessionSlice] using h

/-- Witness for C7 on a three-bar series crossing a session-date change and
containing one zero volume. -/
theorem calculate_vwap_spec_w :
    calculate_vwap df7 = some (vwapFold [] df7) ∧
    (vwapFold [] df7).getD 2 0 =
      ((sessionSlice df7 2).map tpv).sum /
        ((sessionSlice df7 2).map adjVol).sum :=
  calculate_vwap_spec df7 (by norm_num [df7])
    (by norm_num [df7, List.chain'_cons]) 2 (by norm_num [df7])

lemma getD_take (l : List Row) (n k : ℕ) (h : k < n) :
    (l.take n).getD k default = l.getD k default := by
  induction l generalizing n k with
  | nil => simp
  | cons a t ih =>
    cases n with
    | zero => omega
    | succ n =>
      cases k with
      | zero => simp
      | succ k =>
        simp only [List.take_succ_cons, List.getD_cons_succ]
        exact ih n k (by omega)

lemma detect_signal_two (df : List Row) (h : 2 ≤ df.length) :
    detect_signal df =
      if callCond (df.getD (df.length - 2) default)
          (df.getD (df.length - 1) default)
      then some (.buyCall, (df.getD (df.length - 1) default).close)
      else if putCond (df.getD (df.length - 2) default)
          (df.getD (df.length - 1) default)
      then some (.buyPut, (df.getD (df.length - 1) default).close)
      else none := by
  unfold detect_signal
  rw [if_neg (by omega)]

lemma detect_take (df : List Row) (j : ℕ) (h1 : 1 ≤ j) (h2 : j < df.length) :
    detect_signal (df.take (j + 1)) =
      if callCond (df.getD (j - 1) default) (df.getD j default)
      then some (.buyCall, (df.getD j default).close)
      else if putCond (df.getD (j - 1) default) (df.getD j default)
      then some (.buyPut, (df.getD j default).close)
      else none := by
  have hlen : (df.take (j + 1)).length = j + 1 := by
    rw [List.length_take]
    omega
  rw [detect_signal_two _ (by rw [hlen]; omega), hlen]
  have e1 : j + 1 - 2 = j - 1 := by omega
  have e2 : j + 1 - 1 = j := by omega
  rw [e1, e2, getD_take df (j + 1) (j - 1) (by omega),
    getD_take df (j + 1) j (by omega)]

lemma call_put_exclusive (p c : Row) : ¬(callCond p c ∧ putCond p c) := by
  rintro ⟨⟨-, h1, -, -⟩, ⟨-, h2, -, -⟩⟩
  exact absurd h1 (not_lt.mpr (le_of_lt h2))

/-- **C1 (amended).** On a series of at least two rows, `detect_signal`
returns BUY_CALL exactly under the stated four conditions on the last two
rows, BUY_PUT exactly under the mirrored conditions, the two condition sets
are mutually exclusive (so both directions can never be returned on the
same evaluation), and it returns no signal otherwise.  On a series whose
EMA/VWAP pair crosses upward exactly once, at an index where the close
additionally confirms the cross (close above both VWAP and EMA there),
exactly one BUY_CALL fires, at the crossing index — without that price
confirmation no BUY_CALL need fire at all. -/
theorem detect_signal_spec (df : List Row) (h : 2 ≤ df.length) :
    (detect_signal df
        = some (.buyCall, (df.getD (df.length - 1) default).close)
      ↔ callCond (df.getD (df.length - 2) default)
          (df.getD (df.length - 1) default)) ∧
    (detect_signal df
        = some (.buyPut, (df.getD (df.length - 1) default).close)
      ↔ putCond (df.getD (df.length - 2) default)
          (df.getD (df.length - 1) default)) ∧
    ¬(callCond (df.getD (df.length - 2) default)
        (df.getD (df.length - 1) default)
      ∧ putCond (df.getD (df.length - 2) default)
          (df.getD (df.length - 1) default)) ∧
    (¬ callCond (df.getD (df.length - 2) default)
        (df.getD (df.length - 1) default) →
      ¬ putCond (df.getD (df.length - 2) default)
        (df.getD (df.length - 1) default) →
      detect_signal df = none) ∧
    (∀ i, upCrossOnce df i →
      (df.getD i default).close > (df.getD i default).vwap →
      (df.getD i default).close > (df.getD i default).ema →
      ∀ j, firesBuyCall df j ↔ j = i) := by
  refine ⟨?_, ?_, call_put_exclusive _ _, ?_, ?_⟩
  · rw [detect_signal_two df h]
    by_cases hc : callCond (df.getD (df.length - 2) default)
        (df.getD (df.length - 1) default)
    · rw [if_pos hc]
      exact iff_of_true rfl hc
    · rw [if_neg hc]
      by_cases hp : putCond (df.getD (df.length - 2) default)
          (df.getD (df.length - 1) default)
      · rw [if_pos hp]
        exact iff_of_false (by simp) hc
      · rw [if_neg hp]
        exact iff_of_false (by simp) hc
  · rw [detect_signal_two df h]
    by_cases hc : callCond (df.getD (df.length - 2) default)
        (df.getD (df.length - 1) default)
    · have hnp : ¬ putCond (df.getD (df.length - 2) default)
          (df.getD (df.length - 1) default) :=
        fun hp => call_put_exclusive _ _ ⟨hc, hp⟩
      rw [if_pos hc]
      exact iff_of_false (by simp) hnp
    · rw [if_neg hc]
      by_cases hp : putCond (df.getD (df.length - 2) default)
          (df.getD (df.length - 1) default)
      · rw [if_pos hp]
        exact iff_of_true rfl hp
      · rw [if_neg hp]
        exact iff_of_false (by simp) hp
  · intro hc hp
    rw [detect_signal_two df h, if_neg hc, if_neg hp]
  · intro i honce hv he j
    obtain ⟨⟨hi1, hilen, hpe, hce⟩, huniq⟩ := honce
    constructor
    · rintro ⟨hj, hfire⟩
      rcases Nat.eq_zero_or_pos j with hj0 | hj1
      · subst hj0
        have hnone : detect_signal (df.take 1) = none := by
          unfold detect_signal
          rw [if_pos (by rw [List.length_take]; omega)]
        rw [hnone] at hfire
        exact absurd hfire (by simp [isBuyCall])
      · rw [detect_take df j hj1 hj] at hfire
        by_cases hcj : callCond (df.getD (j - 1) default) (df.getD j default)
        · exact huniq j hj ⟨hj1, hj, hcj.1, hcj.2.1⟩
        · rw [if_neg hcj] at hfire
          by_cases hpj : putCond (df.getD (j - 1) default) (df.getD j default)
          · rw [if_pos hpj] at hfire
            exact absurd hfire (by simp [isBuyCall])
          · rw [if_neg hpj] at hfire
            exact absurd hfire (by simp [isBuyCall])
    · intro hji
      subst hji
      refine ⟨hilen, ?_⟩
      rw [detect_take df j hi1 hilen, if_pos ⟨hpe, hce, hv, he⟩]
      rfl

/-- Witness for C1's amended theorem: on two rows meeting the BUY_CALL
conditions, the detector answers BUY_CALL at the current close. -/
theorem detect_signal_spec_w :
    detect_signal w2rows
      = some (.buyCall, (w2rows.getD (w2rows.length - 1) default).close) :=
  (detect_signal_spec w2rows (by norm_num [w2rows])).1.mpr
    (by norm_num [w2rows, callCond])

/-- Counterexample for C1 as stated: running the real indicator pipeline on
`c1df`, the EMA crosses the VWAP upward exactly once (at index 1: EMA 100 ≤
VWAP 100, then EMA 290/3 > VWAP 280/3), yet no BUY_CALL fires anywhere —
the close (90) sits below both indicators at the crossing, so the price
confirmation of `detect_signal` fails. -/
theorem detect_single_cross_cex :
    upCrossOnce (indicatorRows c1df) 1 ∧
    ∀ j < (indicatorRows c1df).length, ¬ firesBuyCall (indicatorRows c1df) j := by
  have hrows : indicatorRows c1df
      = [⟨100, 100, 100⟩, ⟨290 / 3, 280 / 3, 90⟩] := by
    norm_num [indicatorRows, c1df, calculate_ema, emaFold, emaK, vwapFold,
      lookupD, updateD, tpv, typical, adjVol, sessionDate, mkRows]
  rw [hrows]
  refine ⟨⟨?_, ?_⟩, ?_⟩
  · refine ⟨le_refl 1, by norm_num, ?_, ?_⟩ <;> norm_num
  · intro j hj hcr
    have hj2 : j < 2 := by simpa using hj
    interval_cases j
    · exact absurd hcr.1 (by norm_num)
    · rfl
  · intro j hj
    have hj2 : j < 2 := by simpa using hj
    interval_cases j
    · rintro ⟨-, hfire⟩
      norm_num [detect_signal, isBuyCall] at hfire
    · rintro ⟨-, hfire⟩
      norm_num [detect_signal, isBuyCall, callCond, putCond] at hfire

end AlgoFlat
